import Mathlib

/-!
Verification of the GroceryShopperAI chat-backend pipeline.

The development shallowly embeds the command-routing / orchestration
pipeline of `backend/app.py`, the generation-provider selection of
`backend/llm.py`, the structured-output extractor of
`backend/llm_modules/llm_utils.py`, and the inventory ingestion parser,
and proves the behavioural properties stated about them.

Python strings are modelled as Lean `String` (a structure over
`List Char` in this toolchain); Python `int` is `Int`; functions that can
raise are modelled with `Except String`.  External collaborators (the SQL
store, the catalog search, the network legs of the generation backends)
enter as explicit oracle inputs.
-/

set_option maxRecDepth 4000

namespace GroceryShopper

/-! ### Python string primitives (modelled over `List Char`) -/

/-- Characters treated as whitespace by Python `str.strip` / `int` parsing
(ASCII subset; the repository only manipulates ASCII control text). -/
def pyIsSpace (c : Char) : Bool :=
  c = ' ' || c = '\t' || c = '\n' || c = '\r' || c = '\x0b' || c = '\x0c'

/-- Python `str.strip()` on a character list. -/
def pyStripL (l : List Char) : List Char :=
  ((l.dropWhile pyIsSpace).reverse.dropWhile pyIsSpace).reverse

/-- Python `str.strip()`. -/
def pyStrip (s : String) : String := String.mk (pyStripL s.data)

/-- Python `str.lower()` (ASCII; all trigger tokens are ASCII). -/
def pyLowerL (l : List Char) : List Char := l.map Char.toLower

/-- Python `str.lower()`. -/
def pyLower (s : String) : String := String.mk (pyLowerL s.data)

/-- Python substring membership `pat in hay`. -/
def containsSubL (hay pat : List Char) : Bool :=
  match hay with
  | [] => pat.isEmpty
  | c :: t => pat.isPrefixOf (c :: t) || containsSubL t pat

/-- Python substring membership `pat in hay` on `String`. -/
def containsSub (hay pat : String) : Bool := containsSubL hay.data pat.data

/-- Python `str.replace(old, new)`: scan left to right, replacing
non-overlapping occurrences.  `fuel` is set to the text length by the
wrapper; for a nonempty pattern each step consumes at least one character
so the fuel never runs out. -/
def pyReplaceFuel (pat repl : List Char) : Nat → List Char → List Char
  | _, [] => []
  | 0, l => l
  | fuel+1, c :: t =>
    if pat.isPrefixOf (c :: t) then
      repl ++ pyReplaceFuel pat repl fuel ((c :: t).drop pat.length)
    else
      c :: pyReplaceFuel pat repl fuel t

/-- Python `str.replace(old, new)` on character lists (nonempty pattern). -/
def pyReplaceL (hay pat repl : List Char) : List Char :=
  pyReplaceFuel pat repl hay.length hay

/-- Python `str.replace(old, new)`. -/
def pyReplace (s pat repl : String) : String :=
  String.mk (pyReplaceL s.data pat.data repl.data)

/-- Python `str.split(sep)` for a single-character separator: every
occurrence of the separator starts a new field, empty fields included. -/
def splitOnCharL (sep : Char) : List Char → List (List Char)
  | [] => [[]]
  | c :: t =>
    match splitOnCharL sep t with
    | [] => [[]]
    | g :: gs => if c = sep then [] :: g :: gs else (c :: g) :: gs

/-- Helper for `pySplitlinesL`: accumulates the current line (reversed) and
splits at `\r\n`, `\n` or `\r`; a trailing terminator does not open an
empty final line, matching Python `str.splitlines()`. -/
def splitlinesAux (cur : List Char) : List Char → List (List Char)
  | [] => [cur.reverse]
  | '\r' :: '\n' :: [] => [cur.reverse]
  | '\r' :: '\n' :: c :: r => cur.reverse :: splitlinesAux [] (c :: r)
  | '\n' :: [] => [cur.reverse]
  | '\n' :: c :: r => cur.reverse :: splitlinesAux [] (c :: r)
  | '\r' :: [] => [cur.reverse]
  | '\r' :: c :: r => cur.reverse :: splitlinesAux [] (c :: r)
  | c :: r => splitlinesAux (c :: cur) r

/-- Python `str.splitlines()` (covering the `\n`, `\r\n`, `\r` breaks the
backend can encounter in chat text). -/
def pySplitlinesL (l : List Char) : List (List Char) :=
  match l with
  | [] => []
  | c :: t => splitlinesAux [] (c :: t)

/-- Numeric value of an ASCII digit. -/
def digitVal (c : Char) : Nat := c.toNat - 48

/-- Digit tail of Python `int()` parsing: further digits, with single
underscores allowed between digits (Python 3.6+ numeric literals). -/
def digitsAux (acc : Nat) : List Char → Option Nat
  | [] => some acc
  | '_' :: c :: r => if c.isDigit then digitsAux (acc * 10 + digitVal c) r else none
  | '_' :: [] => none
  | c :: r => if c.isDigit then digitsAux (acc * 10 + digitVal c) r else none

/-- Nonempty ASCII digit run for Python `int()`. -/
def pyNatCore : List Char → Option Nat
  | [] => none
  | c :: r => if c.isDigit then digitsAux (digitVal c) r else none

/-- Python `int(str)`: optional surrounding whitespace, optional sign,
nonempty ASCII digit run (underscore separators allowed between digits);
`none` models a raised `ValueError`. -/
def pyIntL (l : List Char) : Option Int :=
  match pyStripL l with
  | [] => none
  | c :: r =>
    if c = '+' then (pyNatCore r).map Int.ofNat
    else if c = '-' then (pyNatCore r).map (fun n => -(Int.ofNat n))
    else (pyNatCore (c :: r)).map Int.ofNat

/-- Python `int(str)` on `String`. -/
def pyInt (s : String) : Option Int := pyIntL s.data

/-- Index of the first character satisfying `p`, if any. -/
def findIdxA (p : Char → Bool) : List Char → Option Nat
  | [] => none
  | c :: t => if p c then some 0 else (findIdxA p t).map (fun i => i + 1)

/-- Python `str.find(c)`: first index of `c`, or `-1`. -/
def pyFindIdx (l : List Char) (c : Char) : Int :=
  match findIdxA (fun x => x = c) l with
  | some i => (i : Int)
  | none => -1

/-- Python `str.rfind(c)`: last index of `c`, or `-1`. -/
def pyRfindIdx (l : List Char) (c : Char) : Int :=
  match findIdxA (fun x => x = c) l.reverse with
  | some j => ((l.length - 1 - j : Nat) : Int)
  | none => -1

/-- Python slice `text[a:b]` for the non-negative indices the extractor
uses. -/
def pySliceL (l : List Char) (a b : Int) : List Char :=
  (l.take b.toNat).drop a.toNat

/-! ### JSON values and `json.loads`

`PyJson` models the Python values `json.loads` can produce.  Numbers are
kept in exact scientific form `mant * 10 ^ exp10`, which distinguishes
every pair of distinct JSON number literals the backend compares. -/

inductive PyJson where
  | null : PyJson
  | bool (b : Bool) : PyJson
  | num (mant : Int) (exp10 : Int) : PyJson
  | str (s : String) : PyJson
  | arr (xs : List PyJson) : PyJson
  | obj (kvs : List (String × PyJson)) : PyJson
deriving Repr

/-- Python `dict` insertion: an existing key keeps its position and gets
the new value (so duplicate keys in a JSON object resolve last-wins). -/
def objInsert (kvs : List (String × PyJson)) (k : String) (v : PyJson) :
    List (String × PyJson) :=
  match kvs with
  | [] => [(k, v)]
  | (k0, v0) :: rest =>
    if k0 = k then (k0, v) :: rest else (k0, v0) :: objInsert rest k v

/-- JSON whitespace. -/
def jsonWs (c : Char) : Bool := c = ' ' || c = '\t' || c = '\n' || c = '\r'

/-- Skip JSON whitespace. -/
def skipWs (l : List Char) : List Char := l.dropWhile jsonWs

/-- Hexadecimal digit value, if any. -/
def hexVal (c : Char) : Option Nat :=
  if c.isDigit then some (c.toNat - 48)
  else if 'a' ≤ c && c ≤ 'f' then some (c.toNat - 87)
  else if 'A' ≤ c && c ≤ 'F' then some (c.toNat - 55)
  else none

/-- Body of a JSON string literal after the opening quote: returns the
decoded characters and the input following the closing quote.  `\uXXXX`
escapes outside the surrogate range decode to the code point (lone
surrogates, unrepresentable in `Char`, fail the parse). -/
def parseStrBody : List Char → Option (List Char × List Char)
  | [] => none
  | '"' :: r => some ([], r)
  | '\\' :: 'u' :: a :: b :: c :: d :: r => do
    let ha ← hexVal a
    let hb ← hexVal b
    let hc ← hexVal c
    let hd ← hexVal d
    let n := ((ha * 16 + hb) * 16 + hc) * 16 + hd
    if h : n.isValidChar then
      let (cs, rest) ← parseStrBody r
      some (Char.ofNatAux n h :: cs, rest)
    else none
  | '\\' :: e :: r => do
    let c ←
      if e = '"' then some '"'
      else if e = '\\' then some '\\'
      else if e = '/' then some '/'
      else if e = 'b' then some '\x08'
      else if e = 'f' then some '\x0c'
      else if e = 'n' then some '\n'
      else if e = 'r' then some '\r'
      else if e = 't' then some '\t'
      else none
    let (cs, rest) ← parseStrBody r
    some (c :: cs, rest)
  | c :: r =>
    if c = '\\' || c = '"' then none
    else do
      let (cs, rest) ← parseStrBody r
      some (c :: cs, rest)

/-- Digits of a JSON number component. -/
def jsonDigits (l : List Char) : List Char × List Char :=
  (l.takeWhile Char.isDigit, l.dropWhile Char.isDigit)

/-- Value of an ASCII digit run. -/
def digitsToNat (l : List Char) : Nat :=
  l.foldl (fun acc c => acc * 10 + digitVal c) 0

/-- JSON number: `-?int frac? exp?` with the strict leading-zero rule of
RFC 8259 (which Python `json.loads` enforces).  Returns the value in
scientific form. -/
def parseNum (l : List Char) : Option (PyJson × List Char) := do
  let (neg, l1) := match l with
    | '-' :: r => (true, r)
    | _ => (false, l)
  let (ds, l2) := jsonDigits l1
  if ds = [] then none else
  if ds.head? = some '0' && ds.length ≠ 1 then none else
  let (fds, l3) := match l2 with
    | '.' :: r => jsonDigits r
    | _ => ([], l2)
  if l2.head? = some '.' && fds = [] then none else
  let l3' := if l2.head? = some '.' then l3 else l2
  let (eVal, l4) ←
    match l3' with
    | 'e' :: r | 'E' :: r =>
      let (esign, r1) := match r with
        | '+' :: r2 => ((1 : Int), r2)
        | '-' :: r2 => ((-1 : Int), r2)
        | _ => ((1 : Int), r)
      let (eds, r2) := jsonDigits r1
      if eds = [] then none else some (esign * (digitsToNat eds : Int), r2)
    | _ => some ((0 : Int), l3')
  let mant : Int := digitsToNat (ds ++ fds)
  let mant := if neg then -mant else mant
  some (.num mant (eVal - (fds.length : Int)), l4)

/-- Parser modes: a value, or the tail of an array / object being
accumulated.  A single fuel-indexed function keeps the recursion
structural, so the kernel can evaluate the parser. -/
inductive PMode where
  | val : PMode
  | arrTail (acc : List PyJson) : PMode
  | objTail (acc : List (String × PyJson)) : PMode

/-- Fuel-indexed JSON parser; the wrapper supplies ample fuel. -/
def parseP : Nat → PMode → List Char → Option (PyJson × List Char)
  | 0, _, _ => none
  | fuel+1, .val, l =>
    match skipWs l with
    | 'n' :: 'u' :: 'l' :: 'l' :: r => some (.null, r)
    | 't' :: 'r' :: 'u' :: 'e' :: r => some (.bool true, r)
    | 'f' :: 'a' :: 'l' :: 's' :: 'e' :: r => some (.bool false, r)
    | '"' :: r => do
      let (cs, rest) ← parseStrBody r
      some (.str (String.mk cs), rest)
    | '[' :: r =>
      (match skipWs r with
       | ']' :: r2 => some (.arr [], r2)
       | r1 => do
         let (v, rest) ← parseP fuel .val r1
         parseP fuel (.arrTail [v]) rest)
    | '{' :: r =>
      (match skipWs r with
       | '}' :: r2 => some (.obj [], r2)
       | '"' :: r1 => do
         let (cs, rest) ← parseStrBody r1
         match skipWs rest with
         | ':' :: r2 => do
           let (v, rest2) ← parseP fuel .val r2
           parseP fuel (.objTail (objInsert [] (String.mk cs) v)) rest2
         | _ => none
       | _ => none)
    | r => parseNum r
  | fuel+1, .arrTail acc, l =>
    match skipWs l with
    | ']' :: r => some (.arr acc, r)
    | ',' :: r => do
      let (v, rest) ← parseP fuel .val r
      parseP fuel (.arrTail (acc ++ [v])) rest
    | _ => none
  | fuel+1, .objTail acc, l =>
    match skipWs l with
    | '}' :: r => some (.obj acc, r)
    | ',' :: r =>
      (match skipWs r with
       | '"' :: r1 => do
         let (cs, rest) ← parseStrBody r1
         match skipWs rest with
         | ':' :: r2 => do
           let (v, rest2) ← parseP fuel .val r2
           parseP fuel (.objTail (objInsert acc (String.mk cs) v)) rest2
         | _ => none
       | _ => none)
    | _ => none

/-- Python `json.loads`: parse one JSON value; trailing non-whitespace is
an error (`none` models a raised `JSONDecodeError`). -/
def pyJsonLoads (s : String) : Option PyJson :=
  match parseP (4 * (s.data.length + 1)) .val s.data with
  | some (v, rest) => if skipWs rest = [] then some v else none
  | none => none

/-! ### `backend/llm_modules/llm_utils.py` -/

/-- `llm_utils.extract_json`: try `json.loads` on the whole text; on
failure take the substring from the first `\x7b` to the last `\x7d`
(inclusive, via `find`/`rfind + 1`) and try again; on total failure return
the empty mapping.  Total — it never raises. -/
def extract_json (t : String) : PyJson :=
  match pyJsonLoads t with
  | some v => v
  | none =>
    let start := pyFindIdx t.data '{'
    let stop := pyRfindIdx t.data '}' + 1
    if start ≠ -1 ∧ stop ≠ -1 then
      match pyJsonLoads (String.mk (pySliceL t.data start stop)) with
      | some v => v
      | none => .obj []
    else .obj []

example : pyJsonLoads ("\x7b\"a\":1\x7d") = some (.obj [("a", .num 1 0)]) := rfl
example : pyJsonLoads (" [1, -2.5, \"x\", true, null] ") =
    some (.arr [.num 1 0, .num (-25) (-1), .str ("x"), .bool true, .null]) := rfl
example : pyJsonLoads ("noise \x7b\"a\":1\x7d trailing") = none := rfl
example : pyJsonLoads ("\x7b\"a\":1,\"a\":2\x7d") = some (.obj [("a", .num 2 0)]) := rfl
example : pyJsonLoads ("01") = none := rfl
example : extract_json ("noise \x7b\"a\":1\x7d trailing") = .obj [("a", .num 1 0)] := rfl
example : extract_json ("not json at all") = .obj [] := rfl
example : extract_json ("\x7b\"k\": [1, 2]\x7d") = .obj [("k", .arr [.num 1 0, .num 2 0])] := rfl

/-! ### `backend/llm.py`: provider registry and selection -/

/-- The keys of `llm.AVAILABLE_MODELS`. -/
def AVAILABLE_MODELS : List String := [("openai"), ("gemini")]

/-- `llm.DEFAULT_MODEL`: `os.getenv("LLM_MODEL", "openai")` under the
default deployment configuration. -/
def DEFAULT_MODEL : String := "openai"

/-- An ASCII apostrophe, used to build the exact source message texts. -/
def apos : String := String.mk [Char.ofNat 39]

/-- The selection prologue of `llm.chat_completion` (llm.py lines 34-38):
a `None` selector falls back to `DEFAULT_MODEL`; an unregistered selector
raises `ValueError` with the message modelled here. -/
def chatModelResolve (modelName : Option String) : Except String String :=
  let m := modelName.getD DEFAULT_MODEL
  if AVAILABLE_MODELS.contains m then .ok m
  else .error ("Model " ++ apos ++ m ++ apos ++ " not available. Choose from: [" ++
    apos ++ "openai" ++ apos ++ ", " ++ apos ++ "gemini" ++ apos ++ "]")

/-- `llm.chat_completion`: resolve the model, then perform the backend
call; `net` is the oracle outcome of the network leg (reply text, or the
message of a raised exception). -/
def chat_completion (modelName : Option String) (net : Except String String) :
    Except String String := do
  let _ ← chatModelResolve modelName
  net

/-! ### Inventory records and the ingestion parser
(`handle_inventory_command`, app.py lines 145-244) -/

/-- A row of the `inventory` table. -/
structure InvRec where
  userId : Nat
  productName : String
  stock : Int
  safetyStockLevel : Int
deriving Repr, DecidableEq

/-- The key the handler upserts by. -/
def invKey (r : InvRec) : Nat × String := (r.userId, r.productName)

/-- The per-product upsert: update the first record matching
`(user_id, product_name)` in place, else append a new row. -/
def upsert (db : List InvRec) (uid : Nat) (name : String) (s t : Int) :
    List InvRec :=
  match db with
  | [] => [⟨uid, name, s, t⟩]
  | r :: rest =>
    if r.userId = uid ∧ r.productName = name then
      { r with stock := s, safetyStockLevel := t } :: rest
    else r :: upsert rest uid name s t

/-- The upsert loop over the parsed items, in input order. -/
def applyUpserts (uid : Nat) (items : List (String × Int × Int))
    (db : List InvRec) : List InvRec :=
  items.foldl (fun d p => upsert d uid p.1 p.2.1 p.2.2) db

/-- Error entry for a line that does not split into three fields. -/
def invErrFields (line : String) : String :=
  "- " ++ apos ++ line ++ apos ++ " (expected: name, stock, safety_stock)"

/-- Error entry for a line whose 2nd or 3rd field is not an integer. -/
def invErrInts (line : String) : String :=
  "- " ++ apos ++ line ++ apos ++ " (stock and safety_stock must be integers)"

/-- One iteration of the line loop: split on commas, strip each part,
require exactly three fields whose 2nd and 3rd fields parse as integers. -/
def parseInvLine (line : String) : Except String (String × Int × Int) :=
  match (splitOnCharL ',' line.data).map (fun p => String.mk (pyStripL p)) with
  | [name, stockStr, safetyStr] =>
    match pyInt stockStr, pyInt safetyStr with
    | some sv, some tv => .ok (name, sv, tv)
    | _, _ => .error (invErrInts line)
  | _ => .error (invErrFields line)

/-- The full line loop: well-formed lines are collected as parsed items,
malformed lines as errors, each preserving input order; a malformed line
never aborts the loop. -/
def collectInvLines : List String → List (String × Int × Int) × List String
  | [] => ([], [])
  | l :: ls =>
    let (ps, es) := collectInvLines ls
    match parseInvLine l with
    | .ok p => (p :: ps, es)
    | .error e => (ps, e :: es)

/-- `[line.strip() for line in cleaned.splitlines() if line.strip()]`. -/
def invLines (cleaned : String) : List String :=
  ((pySplitlinesL cleaned.data).map (fun l => String.mk (pyStripL l))).filter
    (fun s => s ≠ "")

/-- The instruction template broadcast for a bare trigger. -/
def inventoryHelpText : String :=
  "Let" ++ apos ++ "s load your inventory.\n\n" ++
  "Reply with a message in the following format:\n" ++
  "@inventory\n" ++
  "product_name, stock_quantity, safety_stock_level\n\n" ++
  "Example:\n" ++
  "@inventory\n" ++
  "Tomatoes, 50, 20   <-- Tomatoes = product name, 50 = current stock, 20 = safety stock threshold\n" ++
  "Olive oil, 10, 3   <-- Olive oil = product name, 10 = current stock, 3 = safety stock threshold\n" ++
  "Cheese, 5, 2\n\n" ++
  "Make sure each item is on a separate line."

/-- The confirmation message: a success-count line if at least one item
was upserted, an error block listing every malformed line, and a fixed
text when neither is present. -/
def invConfirmText (nParsed : Nat) (errors : List String) : String :=
  let msgLines :=
    (if nParsed ≠ 0 then
      ["✅ Saved/updated " ++ toString nParsed ++ " inventory item(s)."] else []) ++
    (if errors ≠ [] then
      ["⚠️ Some lines could not be processed:\n" ++ String.intercalate "\n" errors] else [])
  if msgLines = [] then "No valid inventory lines were found."
  else String.intercalate "\n" msgLines

/-- Payloads pushed to the room by the pipeline: a plain agent chat
message, or a typed `ai_event`. -/
inductive Broadcast where
  | message (content : String) : Broadcast
  | aiEvent (event : String) (narrative : PyJson) (payload : PyJson) : Broadcast

/-- Result of the ingestion handler: the inventory table after the
upserts, plus the broadcasts it emitted. -/
structure InvOutcome where
  db : List InvRec
  sent : List Broadcast

/-- `handle_inventory_command`: strip the (lower-case) trigger literal,
answer a bare trigger with the instruction template, otherwise parse all
lines, apply the upserts and broadcast one confirmation message. -/
def handle_inventory_command (content : String) (userId : Nat)
    (db : List InvRec) : InvOutcome :=
  let cleaned := pyStrip (pyReplace content ("@inventory") (""))
  if cleaned = "" then ⟨db, [.message inventoryHelpText]⟩
  else
    let (parsedItems, errors) := collectInvLines (invLines cleaned)
    ⟨applyUpserts userId parsedItems db,
     [.message (invConfirmText parsedItems.length errors)]⟩

/-! ### Catalog candidates and the merge/dedup of `handle_gro_command`
(app.py lines 299-322) -/

/-- A catalog candidate as shaped by the pipeline (title, sub-category,
price, rating with `None` already defaulted to 0). -/
structure GItem where
  title : String
  subCategory : String
  price : Rat
  rating : Rat
deriving Repr, DecidableEq

/-- The `seen`-set loop: keep an item only when its title has not been
seen, preserving scan order. -/
def dedupAux (seen : List String) : List GItem → List GItem
  | [] => []
  | g :: gs =>
    if seen.contains g.title then dedupAux seen gs
    else g :: dedupAux (g.title :: seen) gs

/-- Merge/deduplicate retrieval results by title (app.py 316-322). -/
def dedupByTitle (gs : List GItem) : List GItem := dedupAux [] gs

/-- Low-stock classification: `stock < safety_stock_level`. -/
def lowStockOf (inv : List InvRec) : List InvRec :=
  inv.filter (fun i => decide (i.stock < i.safetyStockLevel))

/-- Healthy classification: `stock >= safety_stock_level`. -/
def healthyOf (inv : List InvRec) : List InvRec :=
  inv.filter (fun i => decide (i.safetyStockLevel ≤ i.stock))

/-- The vector-search targets of a branch: the whole inventory for
`menu`, the low-stock items otherwise (app.py 299-303). -/
def searchTargets (kind : String) (inv : List InvRec) : List InvRec :=
  if kind = ("menu") then inv else lowStockOf inv

/-- The product terms for which catalog retrieval is invoked, in order. -/
def retrievalTerms (kind : String) (inv : List InvRec) : List String :=
  (searchTargets kind inv).map (fun i => i.productName)

/-! ### The AI modules (`backend/llm_modules/*.py`) and the pipeline -/

/-- `parsed.get(key, default)` on an extractor result: Python raises
`AttributeError` when the extractor returned a non-dict value. -/
def pyDictGet (j : PyJson) (k : String) (d : PyJson) : Except String PyJson :=
  match j with
  | .obj kvs => .ok ((kvs.lookup k).getD d)
  | _ => .error ("AttributeError: get")

/-- An inventory row serialized as the dict the pipeline passes around. -/
def invItemJson (i : InvRec) : PyJson :=
  .obj [(("product_name"), .str i.productName), (("stock"), .num i.stock 0),
        (("safety_stock_level"), .num i.safetyStockLevel 0)]

/-- The stored user record, as far as the pipeline reads it. -/
structure UserRec where
  preferredLlmModel : Option String
deriving Repr, DecidableEq

/-- Oracle inputs of one pipeline invocation: the acting user's stored
record, the inventory table, and the outcomes of the external calls (the
catalog search per term, and the network leg of each generation call). -/
structure Env where
  user : Option UserRec
  userId : Nat
  db : List InvRec
  retrieval : String → List GItem
  netMenu : Except String String
  netRestock : Except String String
  netGoal : Except String String
  netPlan : Except String String
  netChat : Except String String

/-- `generate_menu` (menu_generator.py): generation call, extraction, and
defaulted projection.  The inventory and catalog arguments shape only the
prompt, whose reply is the oracle `net`. -/
def generate_menu (_inventoryItems : List InvRec) (_groceryItems : List GItem)
    (modelName : Option String) (net : Except String String) :
    Except String PyJson := do
  let raw ← chat_completion modelName net
  let parsed := extract_json raw
  let narrative ← pyDictGet parsed ("narrative") (.str ("Menu suggestions generated."))
  let dishes ← pyDictGet parsed ("dishes") (.arr [])
  return .obj [(("narrative"), narrative), (("dishes"), dishes)]

/-- `generate_restock_plan` (procurement_planner.py).  The catalog
argument shapes only the prompt; `low_stock` also echoes into the result
default. -/
def generate_restock_plan (lowStock : List InvRec) (_groceryItems : List GItem)
    (modelName : Option String) (net : Except String String) :
    Except String PyJson := do
  let raw ← chat_completion modelName net
  let parsed := extract_json raw
  let summary ← pyDictGet parsed ("summary") (.str ("Generated restock plan."))
  let narrative ← pyDictGet parsed ("narrative") (.str ("Here is your restock summary."))
  let items ← pyDictGet parsed ("items") (.arr [])
  let lowOut ← pyDictGet parsed ("low_stock") (.arr (lowStock.map invItemJson))
  return .obj [(("goal"), .str ("")), (("summary"), summary),
               (("narrative"), narrative), (("items"), items), (("low_stock"), lowOut)]

/-- `generate_procurement_plan` (chat_procurement_planner.py), including
the inner `extract_goal` generation call. -/
def generate_procurement_plan (modelName : Option String)
    (netGoal netPlan : Except String String) : Except String PyJson := do
  let rawGoal ← chat_completion modelName netGoal
  let goalJ ← pyDictGet (extract_json rawGoal) ("goal") (.str (""))
  let raw ← chat_completion modelName netPlan
  let data := extract_json raw
  let goal ← pyDictGet data ("goal") goalJ
  let summary ← pyDictGet data ("summary") (.str ("Shopping list generated."))
  let narrative ← pyDictGet data ("narrative") (.str ("Here is your consolidated shopping plan."))
  let items ← pyDictGet data ("items") (.arr [])
  return .obj [(("goal"), goal), (("summary"), summary),
               (("narrative"), narrative), (("items"), items)]

/-- The exception raised by the `@gro analyze` branch: app.py line 327
passes keyword arguments `low_stock_items` / `healthy_items` that
`analyze_inventory` (inventory_analyzer.py line 7) does not declare, so
the call itself raises before any generation happens. -/
def analyzeCallError : String :=
  "TypeError: analyze_inventory() got an unexpected keyword argument " ++
    apos ++ "low_stock_items" ++ apos

/-- Model resolution of `handle_gro_command` (app.py 252-255) and of the
plan branch (app.py 415-416): the stored preference as-is when the user
record exists (possibly `None`), else the literal `"openai"`. -/
def resolveModelGro (user : Option UserRec) : Option String :=
  match user with
  | some u => u.preferredLlmModel
  | none => some ("openai")

/-- Model resolution of the generic mention branch (app.py 448-454):
the stored preference when the user exists and the preference is truthy,
else the literal `"gemini"`. -/
def resolveModelMention (user : Option UserRec) : String :=
  match user with
  | some u =>
    match u.preferredLlmModel with
    | some p => if p = "" then ("gemini") else p
    | none => ("gemini")
  | none => ("gemini")

/-- The short confirmation text per event type (app.py 363-368). -/
def msgTextFor (eventType : String) : String :=
  if eventType = ("inventory_analysis") then
    "Generated inventory analysis for your current stock."
  else if eventType = ("menu_suggestions") then
    "Generated menu suggestions based on your inventory and items from grocery store."
  else if eventType = ("restock_plan") then
    "Generated a suggested restock plan."
  else "AI suggestion generated."

/-- `handle_gro_command`: resolve the model once, classify the caller's
inventory, retrieve and merge catalog candidates for the branch's search
targets, run the AI module, then broadcast the typed event followed by a
short confirmation message.  Every generation step precedes both
broadcasts, so a raised exception yields no broadcast at all. -/
def handle_gro_command (kind : String) (env : Env) :
    Except String (List Broadcast) := do
  let modelName := resolveModelGro env.user
  let inv := env.db.filter (fun r => r.userId = env.userId)
  let lowStock := lowStockOf inv
  let merged := dedupByTitle
    ((searchTargets kind inv).flatMap (fun i => env.retrieval i.productName))
  let (aiResult, eventType) ←
    if kind = ("analyze") then
      (Except.error analyzeCallError : Except String (PyJson × String))
    else if kind = ("restock") then do
      let r ← generate_restock_plan lowStock merged modelName env.netRestock
      pure (r, ("restock_plan"))
    else if kind = ("menu") then do
      let r ← generate_menu inv merged modelName env.netMenu
      pure (r, ("menu_suggestions"))
    else
      pure (PyJson.obj [(("narrative"), .str ("Unknown command.")), (("data"), .obj [])],
        ("unknown"))
  let narrative ← pyDictGet aiResult ("narrative") (.str ("AI suggestion generated."))
  return [.aiEvent eventType narrative aiResult, .message (msgTextFor eventType)]

/-- The fixed system instruction of the generic mention branch. -/
def mentionSystemPrompt : String :=
  "You are a helpful assistant participating in a small group chat. " ++
  "Provide concise, accurate answers suitable for a shared chat context. " ++
  "Cite facts succinctly when helpful and avoid extremely long messages."

/-- The role-tagged turns the mention branch sends to the provider: the
fixed system instruction and the message body with the literal `"@gro"`
occurrences removed and whitespace stripped (app.py 440-461). -/
def mentionMessages (content : String) : List (String × String) :=
  [(("system"), mentionSystemPrompt),
   (("user"), pyStrip (pyReplace content ("@gro") ("")))]

/-- The branches of `maybe_answer_with_llm`. -/
inductive Branch where
  | inventory | analyze | menu | restock | plan | mention | noAction
deriving Repr, DecidableEq

/-- The guard chain of `maybe_answer_with_llm` (app.py 382-441): each
guard is a case-insensitive substring test on the message body, evaluated
top to bottom, and the first hit selects the branch. -/
def route (content : String) : Branch :=
  if content = "" then .noAction
  else if containsSub (pyLower content) ("@inventory") then .inventory
  else if containsSub (pyLower content) ("@gro analyze") then .analyze
  else if containsSub (pyLower content) ("@gro menu") then .menu
  else if containsSub (pyLower content) ("@gro restock") then .restock
  else if containsSub (pyLower content) ("@gro plan") then .plan
  else if !containsSub (pyLower content) ("@gro") then .noAction
  else .mention

/-- Outcome of one detached pipeline task: the stored user record and
inventory table afterwards, the broadcasts that were delivered, and the
exception escaping the task, if any. -/
structure PipeOut where
  user : Option UserRec
  db : List InvRec
  sent : List Broadcast
  err : Option String

/-- Lift a gro-branch result: on an exception nothing was broadcast
(generation precedes both broadcasts) and the exception escapes the
detached task uncaught. -/
def groPipeOut (env : Env) (r : Except String (List Broadcast)) : PipeOut :=
  match r with
  | .ok bs => ⟨env.user, env.db, bs, none⟩
  | .error e => ⟨env.user, env.db, [], some e⟩

/-- The plan branch of the router (app.py 413-433): resolve the model,
generate the chat-based procurement plan, broadcast one typed event and
no confirmation message. -/
def planBroadcasts (env : Env) : Except String (List Broadcast) := do
  let modelName := resolveModelGro env.user
  let result ← generate_procurement_plan modelName env.netGoal env.netPlan
  let narrative ← pyDictGet result ("narrative") (.str ("Here is your procurement plan."))
  pure [Broadcast.aiEvent ("procurement_plan") narrative result]

/-- The reply text of the generic mention branch: the generation result,
or — for any exception the generation call raised — the exception text
behind the `(LLM error) ` marker (app.py 456-465). -/
def mentionReply (env : Env) : String :=
  match chat_completion (some (resolveModelMention env.user)) env.netChat with
  | .ok t => t
  | .error e => "(LLM error) " ++ e

/-- `maybe_answer_with_llm`, the body of the detached pipeline task. -/
def maybe_answer_with_llm (env : Env) (content : String) : PipeOut :=
  match route content with
  | .noAction => ⟨env.user, env.db, [], none⟩
  | .inventory =>
    let o := handle_inventory_command content env.userId env.db
    ⟨env.user, o.db, o.sent, none⟩
  | .analyze => groPipeOut env (handle_gro_command ("analyze") env)
  | .menu => groPipeOut env (handle_gro_command ("menu") env)
  | .restock => groPipeOut env (handle_gro_command ("restock") env)
  | .plan => groPipeOut env (planBroadcasts env)
  | .mention => ⟨env.user, env.db, [.message (mentionReply env)], none⟩

example : route ("please @inventory then @gro menu") = .inventory := rfl
example : route ("Hey @GRO Menu now") = .menu := rfl
example : route ("hello there") = .noAction := rfl
example : route ("") = .noAction := rfl
example : route ("@gro what is rice") = .mention := rfl
example :
    collectInvLines [("Tomatoes, 50, 20"), ("Bad Line"), ("Cheese, x, 2")] =
      ([(("Tomatoes"), 50, 20)],
       [invErrFields ("Bad Line"), invErrInts ("Cheese, x, 2")]) := rfl
example :
    (handle_inventory_command ("@inventory\nTomatoes, 50, 20\nBad Line\nCheese, x, 2") 7 []).db =
      [⟨7, ("Tomatoes"), 50, 20⟩] := rfl

example : pyStrip ("  a b \n") = ("a b") := rfl

/-! ### Properties of the structured-output extractor (claim C4) -/

/-- `rfind + 1` can never be `-1`: `rfind` returns `-1` or a valid index,
so the guard in `extract_json` never rejects on the `stop` side. -/
theorem pyRfind_succ_ne (l : List Char) (c : Char) : pyRfindIdx l c + 1 ≠ -1 := by
  unfold pyRfindIdx
  rcases h : findIdxA (fun x => x = c) l.reverse with _ | j <;> simp only [h] <;> omega

/-- C4: the extractor first parses the whole text; on failure it parses
the substring from the first opening brace to the last closing brace
inclusive; if both attempts fail (or no opening brace exists) it returns
the empty mapping — it is a total function, so it never raises.  On
`"noise \x7b\"a\":1\x7d trailing"` it recovers the mapping `a ↦ 1`, and
on `"not json at all"` it returns the empty mapping. -/
theorem claim4_extractor_fallback :
    (∀ t v, pyJsonLoads t = some v → extract_json t = v) ∧
    (∀ t v, pyJsonLoads t = none →
      pyFindIdx t.data '{' ≠ -1 →
      pyJsonLoads (String.mk (pySliceL t.data (pyFindIdx t.data '{')
        (pyRfindIdx t.data '}' + 1))) = some v →
      extract_json t = v) ∧
    (∀ t, pyJsonLoads t = none →
      pyFindIdx t.data '{' ≠ -1 →
      pyJsonLoads (String.mk (pySliceL t.data (pyFindIdx t.data '{')
        (pyRfindIdx t.data '}' + 1))) = none →
      extract_json t = .obj []) ∧
    (∀ t, pyJsonLoads t = none → pyFindIdx t.data '{' = -1 →
      extract_json t = .obj []) ∧
    extract_json ("noise \x7b\"a\":1\x7d trailing") = .obj [(("a"), .num 1 0)] ∧
    extract_json ("not json at all") = .obj [] := by
  refine ⟨?_, ?_, ?_, ?_, rfl, rfl⟩
  · intro t v h
    simp only [extract_json, h]
  · intro t v h hf hs
    simp only [extract_json, h]
    rw [if_pos ⟨hf, pyRfind_succ_ne t.data _⟩, hs]
  · intro t h hf hs
    simp only [extract_json, h]
    rw [if_pos ⟨hf, pyRfind_succ_ne t.data _⟩, hs]
  · intro t h hf
    simp only [extract_json, h]
    rw [if_neg]
    intro hc
    exact hc.1 hf

/-- Witness for C4: a successful whole-text parse is returned as-is. -/
theorem claim4_extractor_fallback_witness :
    extract_json ("[3]") = .arr [.num 3 0] :=
  claim4_extractor_fallback.1 ("[3]") (.arr [.num 3 0]) rfl

/-! ### Properties of the snapshot partition and retrieval targets
(claim C5) -/

/-- Spec example item A: stock 5, threshold 10. -/
def itemA : InvRec := ⟨1, ("A"), 5, 10⟩

/-- Spec example item B: stock 20, threshold 10. -/
def itemB : InvRec := ⟨1, ("B"), 20, 10⟩

/-- C5: the branches split the snapshot into low-stock
(`stock < safety_stock`) and healthy (`stock ≥ safety_stock`) — a
partition — and retrieval is invoked exactly for the low-stock items'
names in the analysis and restock branches and for every inventory item's
name in the menu branch; on the spec's example A is low-stock, B is
healthy, and only A's term is queried by the analysis branch. -/
theorem claim5_partition_retrieval :
    (∀ inv : List InvRec, ∀ i ∈ inv,
      (i ∈ lowStockOf inv ↔ i.stock < i.safetyStockLevel) ∧
      (i ∈ healthyOf inv ↔ i.safetyStockLevel ≤ i.stock)) ∧
    (∀ inv : List InvRec,
      (lowStockOf inv).length + (healthyOf inv).length = inv.length) ∧
    (∀ inv : List InvRec,
      retrievalTerms ("analyze") inv = (lowStockOf inv).map (fun i => i.productName)) ∧
    (∀ inv : List InvRec,
      retrievalTerms ("restock") inv = (lowStockOf inv).map (fun i => i.productName)) ∧
    (∀ inv : List InvRec,
      retrievalTerms ("menu") inv = inv.map (fun i => i.productName)) ∧
    (lowStockOf [itemA, itemB] = [itemA] ∧ healthyOf [itemA, itemB] = [itemB] ∧
      retrievalTerms ("analyze") [itemA, itemB] = [("A")]) := by
  refine ⟨?_, ?_, ?_, ?_, ?_, by constructor <;> [rfl; constructor <;> rfl]⟩
  · intro inv i hi
    constructor
    · simp [lowStockOf, List.mem_filter, hi]
    · simp [healthyOf, List.mem_filter, hi]
  · intro inv
    induction inv with
    | nil => rfl
    | cons i inv ih =>
      by_cases hp : i.stock < i.safetyStockLevel
      · have hq : ¬ i.safetyStockLevel ≤ i.stock := by omega
        simp only [lowStockOf, healthyOf, List.filter_cons] at *
        simp [hp, hq]
        omega
      · have hq : i.safetyStockLevel ≤ i.stock := by omega
        simp only [lowStockOf, healthyOf, List.filter_cons] at *
        simp [hp, hq]
        omega
  · intro inv
    unfold retrievalTerms searchTargets
    rw [if_neg (by decide)]
  · intro inv
    unfold retrievalTerms searchTargets
    rw [if_neg (by decide)]
  · intro inv
    unfold retrievalTerms searchTargets
    rw [if_pos rfl]

/-- Witness for C5: the classification iff at the concrete snapshot. -/
theorem claim5_partition_retrieval_witness :
    (itemA ∈ lowStockOf [itemA, itemB] ↔ itemA.stock < itemA.safetyStockLevel) ∧
    (itemA ∈ healthyOf [itemA, itemB] ↔ itemA.safetyStockLevel ≤ itemA.stock) :=
  claim5_partition_retrieval.1 [itemA, itemB] itemA (by simp)

/-! ### Properties of the title dedup/merge (claim C6) -/

/-- `List.contains` agrees with membership on `String` lists. -/
theorem contains_true_iff (l : List String) (a : String) :
    l.contains a = true ↔ a ∈ l := by
  simp [List.contains]

/-- `List.contains` is `false` exactly off the list. -/
theorem contains_false_iff (l : List String) (a : String) :
    l.contains a = false ↔ a ∉ l := by
  simp [List.contains]

/-- The dedup loop only ever drops elements, in place. -/
theorem dedupAux_sublist (gs : List GItem) :
    ∀ seen, (dedupAux seen gs).Sublist gs := by
  induction gs with
  | nil => intro seen; simp [dedupAux]
  | cons g gs ih =>
    intro seen
    unfold dedupAux
    by_cases h : seen.contains g.title
    · rw [if_pos h]
      exact (ih seen).cons g
    · rw [if_neg h]
      exact (ih (g.title :: seen)).cons₂ g

/-- Every element surviving the dedup loop is the first occurrence of its
title in the scanned list, and its title was not previously seen. -/
theorem dedupAux_first (gs : List GItem) :
    ∀ seen x, x ∈ dedupAux seen gs →
      seen.contains x.title = false ∧
      gs.find? (fun g => g.title == x.title) = some x := by
  induction gs with
  | nil => intro seen x hx; simp [dedupAux] at hx
  | cons g gs ih =>
    intro seen x hx
    unfold dedupAux at hx
    by_cases h : seen.contains g.title
    · rw [if_pos h] at hx
      obtain ⟨hs, hf⟩ := ih seen x hx
      refine ⟨hs, ?_⟩
      rw [List.find?_cons_of_neg]
      · exact hf
      · intro hbeq
        simp only [beq_iff_eq] at hbeq
        rw [hbeq] at h
        rw [h] at hs
        simp at hs
    · rw [if_neg h] at hx
      rcases List.mem_cons.mp hx with rfl | hx'
      · refine ⟨by simpa using h, ?_⟩
        rw [List.find?_cons_of_pos] <;> simp
      · obtain ⟨hs, hf⟩ := ih _ x hx'
        rw [contains_false_iff, List.mem_cons, not_or] at hs
        refine ⟨?_, ?_⟩
        · rw [contains_false_iff]
          exact hs.2
        · rw [List.find?_cons_of_neg]
          · exact hf
          · intro hbeq
            simp only [beq_iff_eq] at hbeq
            exact hs.1 hbeq.symm

/-- The dedup loop leaves no duplicate title, and no title from `seen`. -/
theorem dedupAux_nodup (gs : List GItem) :
    ∀ seen, ((dedupAux seen gs).map (fun g => g.title)).Nodup ∧
      (∀ t ∈ (dedupAux seen gs).map (fun g => g.title), t ∉ seen) := by
  induction gs with
  | nil => intro seen; simp [dedupAux]
  | cons g gs ih =>
    intro seen
    unfold dedupAux
    by_cases h : seen.contains g.title
    · rw [if_pos h]
      exact ih seen
    · rw [if_neg h]
      obtain ⟨hnd, hni⟩ := ih (g.title :: seen)
      constructor
      · simp only [List.map_cons, List.nodup_cons]
        exact ⟨fun hmem => hni _ hmem (List.mem_cons_self _ _), hnd⟩
      · intro t ht hts
        simp only [List.map_cons, List.mem_cons] at ht
        rcases ht with rfl | ht'
        · exact h (contains_true_iff seen g.title |>.mpr hts)
        · exact hni t ht' (List.mem_cons_of_mem _ hts)

/-- Titles are neither invented nor (except for seen ones) lost. -/
theorem dedupAux_title_mem (gs : List GItem) :
    ∀ seen t, t ∉ seen →
      (t ∈ (dedupAux seen gs).map (fun g => g.title) ↔
        t ∈ gs.map (fun g => g.title)) := by
  induction gs with
  | nil => intro seen t _; simp [dedupAux]
  | cons g gs ih =>
    intro seen t hts
    unfold dedupAux
    by_cases h : seen.contains g.title
    · rw [if_pos h]
      have hne : t ≠ g.title := by
        intro rfl1
        rw [show (seen.contains g.title = true) = (seen.contains g.title) from rfl,
          contains_true_iff] at h
        exact hts (rfl1 ▸ h)
      rw [ih seen t hts]
      simp [hne]
    · rw [if_neg h]
      by_cases he : t = g.title
      · subst he
        simp
      · have hts' : t ∉ g.title :: seen := by
          simp only [List.mem_cons, not_or]
          exact ⟨he, hts⟩
        rw [List.map_cons, List.map_cons, List.mem_cons, List.mem_cons,
          ih (g.title :: seen) t hts']

/-- Two per-term query results that both contain the same catalog title. -/
def queryOne : List GItem := [⟨("Olive Oil 500ml"), ("Oil"), 10, 4⟩,
  ⟨("Sunflower Oil 1l"), ("Oil"), 7, 3⟩]

/-- The second query, returning the shared title with a different payload. -/
def queryTwo : List GItem := [⟨("Olive Oil 500ml"), ("Oil"), 12, 5⟩,
  ⟨("Green Olives 200g"), ("Snacks"), 3, 4⟩]

/-- C6: merging deduplicates by title — the merged list is a subsequence
of the concatenated query results, carries each title at most once and
exactly the titles that occurred, and keeps the first-seen item for each
title; two queries that both return `"Olive Oil 500ml"` contribute that
title exactly once. -/
theorem claim6_dedup_titles :
    (∀ gs : List GItem, (dedupByTitle gs).Sublist gs) ∧
    (∀ gs : List GItem, ((dedupByTitle gs).map (fun g => g.title)).Nodup) ∧
    (∀ gs : List GItem, ∀ t,
      t ∈ (dedupByTitle gs).map (fun g => g.title) ↔
        t ∈ gs.map (fun g => g.title)) ∧
    (∀ gs : List GItem, ∀ x ∈ dedupByTitle gs,
      gs.find? (fun g => g.title == x.title) = some x) ∧
    ((dedupByTitle (queryOne ++ queryTwo)).map (fun g => g.title)).count
      (("Olive Oil 500ml")) = 1 ∧
    dedupByTitle (queryOne ++ queryTwo) =
      [⟨("Olive Oil 500ml"), ("Oil"), 10, 4⟩, ⟨("Sunflower Oil 1l"), ("Oil"), 7, 3⟩,
       ⟨("Green Olives 200g"), ("Snacks"), 3, 4⟩] := by
  refine ⟨fun gs => dedupAux_sublist gs [], fun gs => (dedupAux_nodup gs []).1,
    fun gs t => dedupAux_title_mem gs [] t (by simp), fun gs x hx => (dedupAux_first gs [] x hx).2,
    by rfl, by rfl⟩

/-- Witness for C6: the kept olive-oil item is the first occurrence. -/
theorem claim6_dedup_titles_witness :
    (queryOne ++ queryTwo).find?
      (fun g => g.title == (⟨("Olive Oil 500ml"), ("Oil"), 10, 4⟩ : GItem).title) =
      some ⟨("Olive Oil 500ml"), ("Oil"), 10, 4⟩ :=
  claim6_dedup_titles.2.2.2.1 (queryOne ++ queryTwo)
    ⟨("Olive Oil 500ml"), ("Oil"), 10, 4⟩ (by decide)
example : pyLower ("@GRO Hi") = ("@gro hi") := rfl
example : containsSub ("say @gro hi") ("@gro") = true := rfl
example : containsSub ("say @GRO hi") ("@gro") = false := rfl
example : pyReplace ("x@groy@gro") ("@gro") ("") = ("xy") := rfl
example : pyReplace ("@GRO hi") ("@gro") ("") = ("@GRO hi") := rfl
example : splitOnCharL ',' ("a,,b".data) = [['a'], [], ['b']] := rfl
example : pySplitlinesL ("a\n\nb\n".data) = [['a'], [], ['b']] := rfl
example : pyInt ("50") = some 50 := rfl
example : pyInt ("-5") = some (-5) := rfl
example : pyInt ("x") = none := rfl
example : pyInt ("1_0") = some 10 := rfl
example : pyInt ("1__0") = none := rfl
example : pyFindIdx ("ab\x7bc".data) '{' = 2 := rfl
example : pyRfindIdx ("a\x7db\x7dc".data) '}' = 3 := rfl
example : pyRfindIdx ("abc".data) '}' = -1 := rfl

/-! ### Properties of the ingestion line parser (claim C3) -/

/-- Success test for a fallible computation. -/
def exceptOk {ε α : Type} : Except ε α → Bool
  | .ok _ => true
  | .error _ => false

/-- The error of a fallible computation, if any. -/
def errToOption {ε α : Type} : Except ε α → Option ε
  | .error e => some e
  | .ok _ => none

/-- The spec's well-formedness predicate for an ingestion line: exactly
three comma-separated fields whose 2nd and 3rd fields parse as integers. -/
def wellFormedB (line : String) : Bool :=
  let parts := (splitOnCharL ',' line.data).map (fun p => String.mk (pyStripL p))
  decide (parts.length = 3) && (pyInt (parts.getD 1 (""))).isSome &&
    (pyInt (parts.getD 2 (""))).isSome

/-- The loop collects exactly the well-formed lines as parsed items. -/
theorem collect_fst (lines : List String) :
    (collectInvLines lines).1 =
      lines.filterMap (fun l => (parseInvLine l).toOption) := by
  induction lines with
  | nil => rfl
  | cons l ls ih =>
    rcases hc : collectInvLines ls with ⟨ps, es⟩
    rw [hc] at ih
    rcases hp : parseInvLine l with e | p <;>
      simp [collectInvLines, hc, hp, Except.toOption, ih]

/-- The loop collects exactly the malformed lines as errors. -/
theorem collect_snd (lines : List String) :
    (collectInvLines lines).2 =
      lines.filterMap (fun l => errToOption (parseInvLine l)) := by
  induction lines with
  | nil => rfl
  | cons l ls ih =>
    rcases hc : collectInvLines ls with ⟨ps, es⟩
    rw [hc] at ih
    rcases hp : parseInvLine l with e | p <;>
      simp [collectInvLines, hc, hp, errToOption, ih]

/-- C3: a non-empty line is accepted (and upserted) exactly when it
splits into three comma-separated fields with integer 2nd and 3rd fields;
every other line becomes an error carrying the original line text, and
the loop processes every line regardless of earlier failures.  On the
spec's three-line example exactly one item is upserted (`Tomatoes`, stock
50, threshold 20) and exactly the two malformed lines are reported. -/
theorem claim3_ingestion_lines :
    (∀ line, exceptOk (parseInvLine line) = wellFormedB line) ∧
    (∀ line e, parseInvLine line = .error e →
      e = invErrFields line ∨ e = invErrInts line) ∧
    (∀ lines : List String,
      (collectInvLines lines).1 =
        lines.filterMap (fun l => (parseInvLine l).toOption) ∧
      (collectInvLines lines).2 =
        lines.filterMap (fun l => errToOption (parseInvLine l))) ∧
    collectInvLines [("Tomatoes, 50, 20"), ("Bad Line"), ("Cheese, x, 2")] =
      ([(("Tomatoes"), 50, 20)],
       [invErrFields ("Bad Line"), invErrInts ("Cheese, x, 2")]) ∧
    (handle_inventory_command ("@inventory\nTomatoes, 50, 20\nBad Line\nCheese, x, 2") 7 []).db =
      [⟨7, ("Tomatoes"), 50, 20⟩] := by
  refine ⟨?_, ?_, fun lines => ⟨collect_fst lines, collect_snd lines⟩, rfl, rfl⟩
  · intro line
    unfold parseInvLine wellFormedB
    rcases h : (splitOnCharL ',' line.data).map (fun p => String.mk (pyStripL p)) with
      _ | ⟨a, _ | ⟨b, _ | ⟨c, _ | ⟨d, rest⟩⟩⟩⟩
    · simp [exceptOk]
    · simp [exceptOk]
    · simp [exceptOk]
    · simp only [List.getD, List.getElem?_cons_succ, List.getElem?_cons_zero,
        Option.getD_some, List.length_cons, List.length_nil]
      rcases hb : pyInt b with _ | sv <;> rcases hc : pyInt c with _ | tv <;>
        simp [hb, hc, exceptOk]
    · simp only [exceptOk, List.length_cons]
      rw [decide_eq_false (by omega)]
      simp
  · intro line e h
    unfold parseInvLine at h
    rcases hp : (splitOnCharL ',' line.data).map (fun p => String.mk (pyStripL p)) with
      _ | ⟨a, _ | ⟨b, _ | ⟨c, _ | ⟨d, rest⟩⟩⟩⟩ <;> rw [hp] at h
    · simp only [Except.error.injEq] at h
      exact Or.inl h.symm
    · simp only [Except.error.injEq] at h
      exact Or.inl h.symm
    · simp only [Except.error.injEq] at h
      exact Or.inl h.symm
    · rcases hb : pyInt b with _ | sv <;> rcases hc : pyInt c with _ | tv <;>
        simp [hb, hc] at h <;> exact Or.inr h.symm
    · simp only [Except.error.injEq] at h
      exact Or.inl h.symm

/-- Witness for C3: the malformed-line error carries the original text. -/
theorem claim3_ingestion_lines_witness :
    invErrFields ("Bad Line") = invErrFields ("Bad Line") ∨
      invErrFields ("Bad Line") = invErrInts ("Bad Line") :=
  claim3_ingestion_lines.2.1 ("Bad Line") (invErrFields ("Bad Line")) rfl

/-! ### Sign behaviour of accepted lines (claim C9) -/

/-- An accepted integer field without a leading minus sign (after
stripping) is non-negative: only the minus branch of `int()` can produce
a negative value. -/
theorem pyInt_nonneg (f : String) (v : Int) (h : pyInt f = some v)
    (hm : (pyStripL f.data).head? ≠ some '-') : 0 ≤ v := by
  unfold pyInt pyIntL at h
  rcases hl : pyStripL f.data with _ | ⟨c, r⟩ <;> rw [hl] at h
  · simp at h
  · rw [hl] at hm
    simp only [List.head?_cons, ne_eq, Option.some.injEq] at hm
    replace h :
        (if c = '+' then (pyNatCore r).map Int.ofNat
         else if c = '-' then (pyNatCore r).map (fun n => -(Int.ofNat n))
         else (pyNatCore (c :: r)).map Int.ofNat) = some v := h
    by_cases h1 : c = '+'
    · rw [if_pos h1] at h
      rcases Option.map_eq_some'.mp h with ⟨n, _, rfl⟩
      exact Int.natCast_nonneg n
    · rw [if_neg h1, if_neg hm] at h
      rcases Option.map_eq_some'.mp h with ⟨n, _, rfl⟩
      exact Int.natCast_nonneg n

/-- The stock / threshold of an accepted line are exactly the `int()`
values of its (stripped) 2nd and 3rd fields. -/
theorem parseInvLine_fields (line : String) (n : String) (s t : Int)
    (h : parseInvLine line = .ok (n, s, t)) :
    pyInt (((splitOnCharL ',' line.data).map
      (fun p => String.mk (pyStripL p))).getD 1 ("")) = some s ∧
    pyInt (((splitOnCharL ',' line.data).map
      (fun p => String.mk (pyStripL p))).getD 2 ("")) = some t := by
  unfold parseInvLine at h
  rcases hp : (splitOnCharL ',' line.data).map (fun p => String.mk (pyStripL p)) with
    _ | ⟨a, _ | ⟨b, _ | ⟨c, _ | ⟨d, rest⟩⟩⟩⟩ <;> rw [hp] at h
  · simp at h
  · simp at h
  · simp at h
  · replace h :
        (match pyInt b, pyInt c with
         | some sv, some tv => Except.ok (a, sv, tv)
         | _, _ => Except.error (invErrInts line)) = Except.ok (n, s, t) := h
    rcases hb : pyInt b with _ | sv <;> rcases hc : pyInt c with _ | tv <;>
      rw [hb, hc] at h <;> simp at h
    rcases h with ⟨rfl, rfl, rfl⟩
    constructor <;> simp [hp, hb, hc]
  · simp at h

/-- A single upsert cannot break field non-negativity. -/
theorem upsert_nonneg (db : List InvRec) (uid : Nat) (name : String)
    (s t : Int) (hdb : ∀ r ∈ db, 0 ≤ r.stock ∧ 0 ≤ r.safetyStockLevel)
    (hs : 0 ≤ s) (ht : 0 ≤ t) :
    ∀ r ∈ upsert db uid name s t, 0 ≤ r.stock ∧ 0 ≤ r.safetyStockLevel := by
  induction db with
  | nil =>
    intro r hr
    simp only [upsert, List.mem_singleton] at hr
    subst hr
    exact ⟨hs, ht⟩
  | cons d rest ih =>
    intro r hr
    unfold upsert at hr
    by_cases hc : d.userId = uid ∧ d.productName = name
    · rw [if_pos hc] at hr
      rcases List.mem_cons.mp hr with rfl | hr'
      · exact ⟨hs, ht⟩
      · exact hdb r (List.mem_cons_of_mem _ hr')
    · rw [if_neg hc] at hr
      rcases List.mem_cons.mp hr with rfl | hr'
      · exact hdb r (List.mem_cons_self _ _)
      · exact ih (fun x hx => hdb x (List.mem_cons_of_mem _ hx)) r hr'

/-- The whole upsert loop preserves field non-negativity when every
applied item is non-negative. -/
theorem applyUpserts_nonneg (uid : Nat) (items : List (String × Int × Int)) :
    ∀ db : List InvRec,
      (∀ r ∈ db, 0 ≤ r.stock ∧ 0 ≤ r.safetyStockLevel) →
      (∀ p ∈ items, 0 ≤ p.2.1 ∧ 0 ≤ p.2.2) →
      ∀ r ∈ applyUpserts uid items db, 0 ≤ r.stock ∧ 0 ≤ r.safetyStockLevel := by
  induction items with
  | nil => intro db hdb _; exact hdb
  | cons p items ih =>
    intro db hdb hitems
    have hp := hitems p (List.mem_cons_self _ _)
    exact ih (upsert db uid p.1 p.2.1 p.2.2)
      (upsert_nonneg db uid p.1 p.2.1 p.2.2 hdb hp.1 hp.2)
      (fun q hq => hitems q (List.mem_cons_of_mem _ hq))

/-- C9 (amended): the handler stores exactly the parsed integers; these
are non-negative whenever the corresponding field carries no leading
minus sign, and the upsert loop preserves non-negativity of a table whose
applied items are all non-negative — but `int()` also accepts negative
literals, so non-negativity is not an unconditional invariant (see the
counterexample). -/
theorem claim9_nonnegativity :
    (∀ f v, pyInt f = some v → (pyStripL f.data).head? ≠ some '-' → 0 ≤ v) ∧
    (∀ (line n : String) (s t : Int), parseInvLine line = .ok (n, s, t) →
      pyInt (((splitOnCharL ',' line.data).map
        (fun p => String.mk (pyStripL p))).getD 1 ("")) = some s ∧
      pyInt (((splitOnCharL ',' line.data).map
        (fun p => String.mk (pyStripL p))).getD 2 ("")) = some t) ∧
    (∀ (uid : Nat) (items : List (String × Int × Int)) (db : List InvRec),
      (∀ r ∈ db, 0 ≤ r.stock ∧ 0 ≤ r.safetyStockLevel) →
      (∀ p ∈ items, 0 ≤ p.2.1 ∧ 0 ≤ p.2.2) →
      ∀ r ∈ applyUpserts uid items db, 0 ≤ r.stock ∧ 0 ≤ r.safetyStockLevel) :=
  ⟨pyInt_nonneg, parseInvLine_fields,
   fun uid items db hdb hitems => applyUpserts_nonneg uid items db hdb hitems⟩

/-- Witness for C9: a plain digit field parses to a non-negative value. -/
theorem claim9_nonnegativity_witness : (0 : Int) ≤ 50 :=
  claim9_nonnegativity.1 ("50") 50 rfl (by decide)

/-- Counterexample to C9 as stated: the line `"Tomatoes, -5, 2"` is
accepted as well-formed and the handler stores the negative stock `-5`,
so after this invocation a record violates non-negativity. -/
theorem claim9_counterexample :
    parseInvLine ("Tomatoes, -5, 2") = .ok (("Tomatoes"), -5, 2) ∧
    (handle_inventory_command ("@inventory\nTomatoes, -5, 2") 7 []).db =
      [⟨7, ("Tomatoes"), -5, 2⟩] ∧
    ¬ (0 : Int) ≤ -5 :=
  ⟨rfl, rfl, by decide⟩

/-! ### Last-write-wins upserts (claim C10) -/

/-- The key predicate of the upsert select. -/
def keyPred (uid : Nat) (name : String) (r : InvRec) : Bool :=
  decide (r.userId = uid ∧ r.productName = name)

/-- Stock and threshold of the first record under a key, if any. -/
def stockAt (db : List InvRec) (uid : Nat) (name : String) :
    Option (Int × Int) :=
  (db.find? (keyPred uid name)).map (fun r => (r.stock, r.safetyStockLevel))

/-- The keys present in a table, in order. -/
def keysOf (db : List InvRec) : List (Nat × String) := db.map invKey

/-- The last parsed item carrying a given product name. -/
def lastFor (items : List (String × Int × Int)) (name : String) :
    Option (String × Int × Int) :=
  items.reverse.find? (fun p => p.1 == name)

/-- After an upsert, the first record under the written key holds exactly
the written row. -/
theorem find?_upsert_self (db : List InvRec) (uid : Nat) (name : String)
    (s t : Int) :
    (upsert db uid name s t).find? (keyPred uid name) = some ⟨uid, name, s, t⟩ := by
  induction db with
  | nil =>
    simp [upsert, List.find?_cons_of_pos, keyPred]
  | cons r rest ih =>
    unfold upsert
    by_cases hc : r.userId = uid ∧ r.productName = name
    · rw [if_pos hc, List.find?_cons_of_pos]
      · have : ({ r with stock := s, safetyStockLevel := t } : InvRec) =
            ⟨uid, name, s, t⟩ := by
          obtain ⟨h1, h2⟩ := hc
          cases r
          simp_all
        rw [this]
      · simp [keyPred, hc.1, hc.2]
    · rw [if_neg hc, List.find?_cons_of_neg]
      · exact ih
      · simp only [keyPred, decide_eq_true_eq]
        exact hc

/-- An upsert leaves every other key untouched. -/
theorem find?_upsert_other (db : List InvRec) (uid uid2 : Nat)
    (name name2 : String) (s t : Int)
    (h : ¬ (uid2 = uid ∧ name2 = name)) :
    (upsert db uid name s t).find? (keyPred uid2 name2) =
      db.find? (keyPred uid2 name2) := by
  induction db with
  | nil =>
    rw [List.find?_nil]
    have : keyPred uid2 name2 ⟨uid, name, s, t⟩ = false := by
      simp only [keyPred, decide_eq_false_iff_not]
      intro hk
      exact h ⟨hk.1.symm ▸ rfl, hk.2.symm ▸ rfl⟩
    simp [upsert, List.find?, this]
  | cons r rest ih =>
    unfold upsert
    by_cases hc : r.userId = uid ∧ r.productName = name
    · rw [if_pos hc]
      have hk : keyPred uid2 name2 ({ r with stock := s, safetyStockLevel := t } : InvRec) =
          keyPred uid2 name2 r := by
        simp [keyPred]
      by_cases hr : keyPred uid2 name2 r = true
      · exfalso
        simp only [keyPred, decide_eq_true_eq] at hr
        exact h ⟨hr.1 ▸ hc.1 ▸ rfl, hr.2 ▸ hc.2 ▸ rfl⟩
      · rw [List.find?_cons_of_neg, List.find?_cons_of_neg]
        · exact hr
        · rw [hk]
          exact hr
    · rw [if_neg hc]
      by_cases hr : keyPred uid2 name2 r = true
      · rw [List.find?_cons_of_pos _ hr, List.find?_cons_of_pos _ hr]
      · rw [List.find?_cons_of_neg _ hr, List.find?_cons_of_neg _ hr]
        exact ih

/-- The values seen under a key after the upsert loop: the last item with
that product name wins; a name never written leaves the table entry as it
was. -/
theorem applyUpserts_stockAt (uid : Nat) (items : List (String × Int × Int)) :
    ∀ (db : List InvRec) (name : String),
      stockAt (applyUpserts uid items db) uid name =
        match lastFor items name with
        | some p => some (p.2.1, p.2.2)
        | none => stockAt db uid name := by
  induction items with
  | nil => intro db name; rfl
  | cons p items ih =>
    intro db name
    have h1 : applyUpserts uid (p :: items) db =
        applyUpserts uid items (upsert db uid p.1 p.2.1 p.2.2) := rfl
    rw [h1, ih]
    have h2 : lastFor (p :: items) name =
        (lastFor items name).or (List.find? (fun q => q.1 == name) [p]) := by
      unfold lastFor
      rw [List.reverse_cons, List.find?_append]
    rw [h2]
    rcases hl : lastFor items name with _ | q
    · simp only [hl, Option.none_or]
      by_cases hp : (p.1 == name) = true
      · have hfind : List.find? (fun q => q.1 == name) [p] = some p := by
          simp [hp]
        rw [hfind]
        have hname : p.1 = name := by simpa using hp
        subst hname
        unfold stockAt
        rw [find?_upsert_self]
        rfl
      · have hfind : List.find? (fun q => q.1 == name) [p] = none := by
          simp only [List.find?]
          rw [Bool.of_not_eq_true hp]
        rw [hfind]
        have hname : ¬ name = p.1 := by
          intro hx
          exact hp (by simp [hx])
        unfold stockAt
        rw [find?_upsert_other]
        intro hk
        exact hname hk.2
    · simp only [hl]
      rfl

/-- Keys after an upsert: unchanged if the key was present, else the new
key is appended. -/
theorem upsert_keys (db : List InvRec) (uid : Nat) (name : String)
    (s t : Int) :
    keysOf (upsert db uid name s t) =
      if (uid, name) ∈ keysOf db then keysOf db
      else keysOf db ++ [(uid, name)] := by
  induction db with
  | nil => simp [upsert, keysOf, invKey]
  | cons r rest ih =>
    unfold upsert
    by_cases hc : r.userId = uid ∧ r.productName = name
    · rw [if_pos hc]
      have hk : invKey r = (uid, name) := by
        simp [invKey, hc.1, hc.2]
      have hmem : (uid, name) ∈ keysOf (r :: rest) := by
        unfold keysOf
        rw [List.map_cons, hk]
        exact List.mem_cons_self _ _
      rw [if_pos hmem]
      rfl
    · rw [if_neg hc]
      have hk : invKey r ≠ (uid, name) := by
        simp only [invKey, ne_eq, Prod.mk.injEq, not_and]
        intro h1 h2
        exact hc ⟨h1, h2⟩
      simp only [keysOf, List.map_cons] at *
      rw [ih]
      by_cases hm : (uid, name) ∈ List.map invKey rest
      · rw [if_pos hm, if_pos (List.mem_cons_of_mem _ hm)]
      · rw [if_neg hm, if_neg ?_, List.cons_append]
        simp only [List.mem_cons, not_or]
        exact ⟨fun hx => hk hx.symm, hm⟩

/-- An upsert never loses a key. -/
theorem mem_keys_upsert (db : List InvRec) (uid : Nat) (name : String)
    (s t : Int) (k : Nat × String) (hk : k ∈ keysOf db) :
    k ∈ keysOf (upsert db uid name s t) := by
  rw [upsert_keys]
  by_cases hm : (uid, name) ∈ keysOf db
  · rw [if_pos hm]; exact hk
  · rw [if_neg hm]; exact List.mem_append_left _ hk

/-- The written key is present after an upsert. -/
theorem mem_keys_upsert_self (db : List InvRec) (uid : Nat) (name : String)
    (s t : Int) : (uid, name) ∈ keysOf (upsert db uid name s t) := by
  rw [upsert_keys]
  by_cases hm : (uid, name) ∈ keysOf db
  · rw [if_pos hm]; exact hm
  · rw [if_neg hm]; exact List.mem_append_right _ (List.mem_singleton.mpr rfl)

/-- The upsert loop preserves key uniqueness of the table. -/
theorem applyUpserts_keys_nodup (uid : Nat) (items : List (String × Int × Int)) :
    ∀ db : List InvRec, (keysOf db).Nodup →
      (keysOf (applyUpserts uid items db)).Nodup := by
  induction items with
  | nil => intro db h; exact h
  | cons p items ih =>
    intro db h
    apply ih
    rw [upsert_keys]
    by_cases hm : (uid, p.1) ∈ keysOf db
    · rw [if_pos hm]; exact h
    · rw [if_neg hm]
      rw [List.nodup_append]
      exact ⟨h, List.nodup_singleton _, by simpa using hm⟩

/-- The upsert loop never loses a key. -/
theorem mem_keys_applyUpserts_mono (uid : Nat)
    (items : List (String × Int × Int)) :
    ∀ (db : List InvRec) (k : Nat × String),
      k ∈ keysOf db → k ∈ keysOf (applyUpserts uid items db) := by
  induction items with
  | nil => intro db k h; exact h
  | cons p items ih =>
    intro db k h
    exact ih _ k (mem_keys_upsert db uid p.1 p.2.1 p.2.2 k h)

/-- Every upserted product name is present afterwards. -/
theorem mem_keys_applyUpserts (uid : Nat) (items : List (String × Int × Int)) :
    ∀ (db : List InvRec) (name : String),
      name ∈ items.map (fun p => p.1) →
      (uid, name) ∈ keysOf (applyUpserts uid items db) := by
  induction items with
  | nil => intro db name h; simp at h
  | cons p items ih =>
    intro db name h
    simp only [List.map_cons, List.mem_cons] at h
    rcases h with rfl | h2
    · exact mem_keys_applyUpserts_mono uid items _ _
        (mem_keys_upsert_self db uid p.1 p.2.1 p.2.2)
    · exact ih (upsert db uid p.1 p.2.1 p.2.2) name h2

/-- A key absent from a list is filtered to nothing. -/
theorem filter_eq_nil_of_not_mem (l : List (Nat × String)) (a : Nat × String)
    (h : a ∉ l) : l.filter (fun k => decide (k = a)) = [] := by
  induction l with
  | nil => rfl
  | cons b l ih =>
    simp only [List.mem_cons, not_or] at h
    simp only [List.filter_cons, decide_eq_true_eq]
    rw [if_neg (fun hx => h.1 hx.symm)]
    exact ih h.2

/-- In a duplicate-free list a present key is filtered to a singleton. -/
theorem nodup_mem_filter_one (l : List (Nat × String)) (a : Nat × String)
    (hnd : l.Nodup) (ha : a ∈ l) :
    (l.filter (fun k => decide (k = a))).length = 1 := by
  induction l with
  | nil => cases ha
  | cons b l ih =>
    rw [List.nodup_cons] at hnd
    rcases List.mem_cons.mp ha with rfl | ha2
    · simp only [List.filter_cons, decide_eq_true_eq, if_true]
      rw [filter_eq_nil_of_not_mem l a hnd.1]
      rfl
    · by_cases hb : b = a
      · subst hb
        exact absurd ha2 hnd.1
      · simp only [List.filter_cons, decide_eq_true_eq]
        rw [if_neg hb]
        exact ih hnd.2 ha2

/-- Records under a key correspond one-to-one to that key in the key
list. -/
theorem filter_key_length (db : List InvRec) (uid : Nat) (name : String) :
    (db.filter (keyPred uid name)).length =
      ((keysOf db).filter (fun k => decide (k = (uid, name)))).length := by
  induction db with
  | nil => rfl
  | cons r rest ih =>
    have hcond : (decide (invKey r = (uid, name))) = keyPred uid name r := by
      simp [keyPred, invKey, Prod.ext_iff]
    unfold keysOf at *
    rw [List.map_cons, List.filter_cons, List.filter_cons]
    by_cases hc : keyPred uid name r = true
    · rw [if_pos hc, if_pos (by rw [hcond]; exact hc)]
      simp [ih]
    · rw [if_neg hc, if_neg (by rw [hcond]; exact hc)]
      exact ih

/-- C10: upserting several well-formed lines with the same product name
within one invocation leaves exactly one record under that key, holding
the values of the last such line; key uniqueness of the table is
preserved, so no duplicate record is ever created.  Concretely, the
two-line message writing `A` twice ends with the single record
`(A, 3, 4)`. -/
theorem claim10_last_write_wins :
    (∀ (uid : Nat) (items : List (String × Int × Int)) (db : List InvRec)
        (name : String) (p : String × Int × Int),
      (keysOf db).Nodup → lastFor items name = some p →
      ((applyUpserts uid items db).filter (keyPred uid name)).length = 1 ∧
      stockAt (applyUpserts uid items db) uid name = some (p.2.1, p.2.2)) ∧
    (∀ (uid : Nat) (items : List (String × Int × Int)) (db : List InvRec),
      (keysOf db).Nodup → (keysOf (applyUpserts uid items db)).Nodup) ∧
    (handle_inventory_command ("@inventory\nA, 1, 2\nA, 3, 4") 7 []).db =
      [⟨7, ("A"), 3, 4⟩] := by
  refine ⟨?_, fun uid items db h => applyUpserts_keys_nodup uid items db h, rfl⟩
  intro uid items db name p hnd hlast
  have hmem_items : name ∈ items.map (fun q => q.1) := by
    unfold lastFor at hlast
    have hp := List.find?_some hlast
    have hm := List.mem_of_find?_eq_some hlast
    rw [List.mem_reverse] at hm
    have hpn : p.1 = name := by simpa using hp
    rw [← hpn]
    exact List.mem_map_of_mem _ hm
  have hmem : (uid, name) ∈ keysOf (applyUpserts uid items db) :=
    mem_keys_applyUpserts uid items db name hmem_items
  have hnd2 := applyUpserts_keys_nodup uid items db hnd
  constructor
  · rw [filter_key_length]
    exact nodup_mem_filter_one _ _ hnd2 hmem
  · rw [applyUpserts_stockAt uid items db name, hlast]

/-- Witness for C10: the duplicate-name message leaves one record with
the last values. -/
theorem claim10_last_write_wins_witness :
    ((applyUpserts 7 [(("A"), 1, 2), (("A"), 3, 4)] []).filter
      (keyPred 7 ("A"))).length = 1 ∧
    stockAt (applyUpserts 7 [(("A"), 1, 2), (("A"), 3, 4)] []) 7 ("A") =
      some (3, 4) :=
  claim10_last_write_wins.1 7 [(("A"), 1, 2), (("A"), 3, 4)] [] ("A")
    (("A"), 3, 4) (by simp [keysOf]) rfl

/-! ### The router priority order (claim C2) -/

/-- The trigger table in the spec's priority order. -/
def triggerTable : List (String × Branch) :=
  [(("@inventory"), .inventory), (("@gro analyze"), .analyze),
   (("@gro menu"), .menu), (("@gro restock"), .restock),
   (("@gro plan"), .plan), (("@gro"), .mention)]

/-- The spec's router: first trigger (in priority order) contained in the
lower-cased body wins; no trigger means no action. -/
def routeSpec (content : String) : Branch :=
  if content = "" then .noAction
  else
    match triggerTable.find? (fun p => containsSub (pyLower content) p.1) with
    | some p => p.2
    | none => .noAction

/-- The guard chain of the source router is exactly first-match over the
spec's priority table. -/
theorem route_eq_routeSpec (s : String) : route s = routeSpec s := by
  unfold route routeSpec triggerTable
  by_cases h0 : s = ""
  · simp [h0]
  · by_cases h1 : containsSub (pyLower s) ("@inventory") <;>
    by_cases h2 : containsSub (pyLower s) ("@gro analyze") <;>
    by_cases h3 : containsSub (pyLower s) ("@gro menu") <;>
    by_cases h4 : containsSub (pyLower s) ("@gro restock") <;>
    by_cases h5 : containsSub (pyLower s) ("@gro plan") <;>
    by_cases h6 : containsSub (pyLower s) ("@gro") <;>
      simp [h0, h1, h2, h3, h4, h5, h6, List.find?]

/-- C2: the router evaluates the lower-cased body against the triggers in
strict priority order (inventory, analysis, menu, restock, plan, generic
mention) and exactly the first match runs: a body containing the
inventory trigger dispatches only the Ingestion Handler whatever else it
contains, and a body with no trigger produces no action (and no
broadcast). -/
theorem claim2_router_priority :
    (∀ s, route s = routeSpec s) ∧
    (∀ s, containsSub (pyLower s) ("@inventory") = true → route s = .inventory) ∧
    (∀ env s, route s = .inventory →
      maybe_answer_with_llm env s =
        ⟨env.user, (handle_inventory_command s env.userId env.db).db,
         (handle_inventory_command s env.userId env.db).sent, none⟩) ∧
    (∀ env s, route s = .noAction →
      maybe_answer_with_llm env s = ⟨env.user, env.db, [], none⟩) ∧
    route ("please @inventory and @gro menu now") = .inventory ∧
    route ("hello nothing here") = .noAction := by
  refine ⟨route_eq_routeSpec, ?_, ?_, ?_, rfl, rfl⟩
  · intro s h
    have h0 : ¬ s = "" := by
      intro hs
      rw [hs] at h
      exact absurd h (by decide)
    unfold route
    rw [if_neg h0, if_pos h]
  · intro env s h
    unfold maybe_answer_with_llm
    rw [h]
  · intro env s h
    unfold maybe_answer_with_llm
    rw [h]

/-- Witness for C2: a mixed-case inventory trigger beats a later trigger. -/
theorem claim2_router_priority_witness :
    route ("check @INVENTORY: Tomatoes, 1, 2 and @gro plan") = .inventory :=
  claim2_router_priority.2.1 ("check @INVENTORY: Tomatoes, 1, 2 and @gro plan")
    (by decide)

/-! ### Error propagation at the task boundary (claim C1) -/

/-- A gro-branch outcome never changes the stored user record. -/
theorem groPipeOut_user (env : Env) (r : Except String (List Broadcast)) :
    (groPipeOut env r).user = env.user := by
  rcases r <;> rfl

/-- C1 (amended): only the generic mention branch converts a generation
failure into a visible reply — it always broadcasts exactly one agent
message, the `(LLM error) `-prefixed exception text when the call raised;
the ingestion branch always broadcasts exactly one confirmation; but an
exception raised inside the analysis, menu, restock or plan branches is
not caught at the task boundary: it escapes the detached task and no
broadcast at all is produced.  The analysis branch in fact always raises
a `TypeError` (keyword-argument mismatch between app.py line 327 and
`analyze_inventory`). -/
theorem claim1_error_propagation :
    (∀ env s, route s = .mention →
      (maybe_answer_with_llm env s).err = none ∧
      (maybe_answer_with_llm env s).sent = [.message (mentionReply env)]) ∧
    (∀ env e, chat_completion (some (resolveModelMention env.user)) env.netChat =
        .error e → mentionReply env = "(LLM error) " ++ e) ∧
    (∀ env s, route s = .inventory →
      (maybe_answer_with_llm env s).err = none ∧
      ∃ t, (maybe_answer_with_llm env s).sent = [.message t]) ∧
    (∀ env, handle_gro_command ("analyze") env = .error analyzeCallError) ∧
    (∀ env s, route s = .analyze →
      maybe_answer_with_llm env s = ⟨env.user, env.db, [], some analyzeCallError⟩) ∧
    (∀ env s e, route s = .menu → handle_gro_command ("menu") env = .error e →
      maybe_answer_with_llm env s = ⟨env.user, env.db, [], some e⟩) ∧
    (∀ env s e, route s = .restock →
      handle_gro_command ("restock") env = .error e →
      maybe_answer_with_llm env s = ⟨env.user, env.db, [], some e⟩) ∧
    (∀ env s e, route s = .plan → planBroadcasts env = .error e →
      maybe_answer_with_llm env s = ⟨env.user, env.db, [], some e⟩) := by
  refine ⟨?_, ?_, ?_, fun env => rfl, ?_, ?_, ?_, ?_⟩
  · intro env s h
    unfold maybe_answer_with_llm
    rw [h]
    exact ⟨rfl, rfl⟩
  · intro env e h
    unfold mentionReply
    rw [h]
  · intro env s h
    unfold maybe_answer_with_llm
    rw [h]
    refine ⟨rfl, ?_⟩
    unfold handle_inventory_command
    by_cases hc : pyStrip (pyReplace s ("@inventory") ("")) = ""
    · rw [if_pos hc]
      exact ⟨inventoryHelpText, rfl⟩
    · rw [if_neg hc]
      exact ⟨_, rfl⟩
  · intro env s h
    unfold maybe_answer_with_llm
    rw [h]
    rfl
  · intro env s e h hg
    unfold maybe_answer_with_llm
    rw [h]
    unfold groPipeOut
    rw [hg]
  · intro env s e h hg
    unfold maybe_answer_with_llm
    rw [h]
    unfold groPipeOut
    rw [hg]
  · intro env s e h hg
    unfold maybe_answer_with_llm
    rw [h]
    unfold groPipeOut
    rw [hg]

/-- An environment in which every external call succeeds. -/
def envAllOk : Env :=
  ⟨some ⟨some ("openai")⟩, 1, [], fun _ => [], .ok ("x"), .ok ("x"),
   .ok ("x"), .ok ("x"), .ok ("x")⟩

/-- Counterexample to C1 as stated: the triggered message
`"@gro analyze"` — with every external collaborator healthy — produces
no broadcast whatsoever; the branch raises and the exception leaves the
detached task uncaught, so the trigger is silently swallowed. -/
theorem claim1_counterexample :
    route ("@gro analyze") = .analyze ∧
    maybe_answer_with_llm envAllOk ("@gro analyze") =
      ⟨some ⟨some ("openai")⟩, [], [], some analyzeCallError⟩ ∧
    (maybe_answer_with_llm envAllOk ("@gro analyze")).sent = [] :=
  ⟨rfl, rfl, rfl⟩

/-- An environment whose mention-branch generation call raises. -/
def envChatFail : Env :=
  ⟨some ⟨some ("openai")⟩, 1, [], fun _ => [], .ok ("x"), .ok ("x"),
   .ok ("x"), .ok ("x"), .error ("boom")⟩

/-- Witness for C1: a failing generation in the mention branch still
yields exactly one visible, error-marked reply. -/
theorem claim1_error_propagation_witness :
    mentionReply envChatFail = "(LLM error) boom" :=
  claim1_error_propagation.2.1 envChatFail ("boom") rfl

/-! ### Backend preference resolution (claim C7) -/

/-- C7 (amended): each branch resolves the acting user's backend once at
its start and the pipeline never mutates the stored record; a missing
user or unset preference falls back to a hardcoded default (`"gemini"` in
the mention branch, `"openai"` via the command branches); but an invalid
(unregistered) stored preference is *not* replaced by the default — it
reaches the generation layer, which rejects it. -/
theorem claim7_backend_resolution :
    resolveModelMention none = ("gemini") ∧
    (∀ u : UserRec, u.preferredLlmModel = none →
      resolveModelMention (some u) = ("gemini")) ∧
    (∀ u : UserRec, u.preferredLlmModel = some ("") →
      resolveModelMention (some u) = ("gemini")) ∧
    resolveModelGro none = some ("openai") ∧
    chatModelResolve none = .ok DEFAULT_MODEL ∧
    (∀ m, AVAILABLE_MODELS.contains m = true → chatModelResolve (some m) = .ok m) ∧
    (∀ m, AVAILABLE_MODELS.contains m = false →
      ∃ e, chatModelResolve (some m) = .error e) ∧
    (∀ env s, (maybe_answer_with_llm env s).user = env.user) := by
  refine ⟨rfl, ?_, ?_, rfl, rfl, ?_, ?_, ?_⟩
  · intro u h
    obtain ⟨pref⟩ := u
    have h2 : pref = none := h
    subst h2
    rfl
  · intro u h
    obtain ⟨pref⟩ := u
    have h2 : pref = some ("") := h
    subst h2
    rfl
  · intro m h
    unfold chatModelResolve
    simp only [Option.getD_some]
    rw [if_pos h]
  · intro m h
    refine ⟨("Model " ++ apos ++ m ++ apos ++ " not available. Choose from: [" ++
      apos ++ "openai" ++ apos ++ ", " ++ apos ++ "gemini" ++ apos ++ "]"), ?_⟩
    unfold chatModelResolve
    simp only [Option.getD_some]
    rw [if_neg (by intro hc; rw [h] at hc; exact Bool.noConfusion hc)]
  · intro env s
    unfold maybe_answer_with_llm
    cases hr : route s
    case inventory => rfl
    case analyze => exact groPipeOut_user env _
    case menu => exact groPipeOut_user env _
    case restock => exact groPipeOut_user env _
    case plan => exact groPipeOut_user env _
    case mention => rfl
    case noAction => rfl

/-- The user record shipped with the repository schema default
(`preferred_llm_model = "tinyllama"`, db.py line 30) — a selector that is
not registered in `AVAILABLE_MODELS`. -/
def tinyUser : UserRec := ⟨some ("tinyllama")⟩

/-- An environment for that user whose network legs all succeed. -/
def envTiny : Env :=
  ⟨some tinyUser, 1, [], fun _ => [], .ok ("x"), .ok ("x"), .ok ("x"),
   .ok ("x"), .ok ("hello!")⟩

/-- Counterexample to C7 as stated: an invalid stored preference is not
replaced by the default backend — the mention branch hands it to the
generation layer, which raises, and the user receives the error text
instead of the reply the default backend would have produced. -/
theorem claim7_counterexample :
    resolveModelMention (some tinyUser) = ("tinyllama") ∧
    AVAILABLE_MODELS.contains ("tinyllama") = false ∧
    chatModelResolve (some ("tinyllama")) =
      .error ("Model " ++ apos ++ "tinyllama" ++ apos ++
        " not available. Choose from: [" ++ apos ++ "openai" ++ apos ++
        ", " ++ apos ++ "gemini" ++ apos ++ "]") ∧
    (maybe_answer_with_llm envTiny ("@gro hi")).sent =
      [.message ("(LLM error) Model " ++ apos ++ "tinyllama" ++ apos ++
        " not available. Choose from: [" ++ apos ++ "openai" ++ apos ++
        ", " ++ apos ++ "gemini" ++ apos ++ "]")] ∧
    (maybe_answer_with_llm envTiny ("@gro hi")).sent ≠
      [.message ("hello!")] := by
  refine ⟨rfl, rfl, rfl, rfl, ?_⟩
  intro h
  have h3 : [Broadcast.message ("(LLM error) Model " ++ apos ++ "tinyllama" ++
      apos ++ " not available. Choose from: [" ++ apos ++ "openai" ++ apos ++
      ", " ++ apos ++ "gemini" ++ apos ++ "]")] =
      [Broadcast.message ("hello!")] := h
  injection h3 with h4 h5
  injection h4 with h6
  exact absurd h6 (by decide)

/-- Witness for C7: an unset preference resolves to the mention-branch
default backend. -/
theorem claim7_backend_resolution_witness :
    resolveModelMention (some ⟨none⟩) = ("gemini") :=
  claim7_backend_resolution.2.1 ⟨none⟩ rfl

/-! ### Mention-token stripping (claim C8) -/

/-- C8 (amended): the mention branch fires only when the token occurs in
the lower-cased body (case-insensitive recognition), and what it sends to
the provider is the fixed system instruction plus the body with only the
exact lowercase `"@gro"` occurrences removed (then whitespace-stripped) —
differently-cased tokens are recognized but not stripped (see the
counterexample). -/
theorem claim8_mention_strip :
    (∀ s, route s = .mention → containsSub (pyLower s) ("@gro") = true) ∧
    (∀ s, route s = .mention →
      mentionMessages s =
        [(("system"), mentionSystemPrompt),
         (("user"), pyStrip (pyReplace s ("@gro") ("")))]) ∧
    pyStrip (pyReplace ("@gro what is rice") ("@gro") ("")) = ("what is rice") ∧
    mentionMessages ("@gro what is rice") =
      [(("system"), mentionSystemPrompt), (("user"), ("what is rice"))] := by
  refine ⟨?_, fun s _ => rfl, rfl, rfl⟩
  intro s h
  unfold route at h
  split_ifs at h with h0 h1 h2 h3 h4 h5 h6 <;>
    first
      | exact Branch.noConfusion h
      | simpa using h6

/-- Counterexample to C8 as stated: `"@GRO hi"` reaches the mention
branch (recognition is case-insensitive), but the token survives the
case-sensitive `replace` and is sent to the provider verbatim. -/
theorem claim8_counterexample :
    route ("@GRO hi") = .mention ∧
    pyReplace ("@GRO hi") ("@gro") ("") = ("@GRO hi") ∧
    mentionMessages ("@GRO hi") =
      [(("system"), mentionSystemPrompt), (("user"), ("@GRO hi"))] ∧
    containsSub (pyLower ("@GRO hi")) ("@gro") = true :=
  ⟨rfl, rfl, rfl, rfl⟩

/-- Witness for C8: the turns sent for a lowercase-token message. -/
theorem claim8_mention_strip_witness :
    mentionMessages ("@gro what time") =
      [(("system"), mentionSystemPrompt),
       (("user"), pyStrip (pyReplace ("@gro what time") ("@gro") ("")))] :=
  claim8_mention_strip.2.1 ("@gro what time") rfl

end GroceryShopper
